import Mathlib

/-!
Verification development for the compatibility retrieval engine of the
Polyvore outfit recommender (`src/app.py`): the in-memory feature store,
the L2 normalization of stored vectors (`normalize_features`, which wraps
`sklearn.preprocessing.normalize`), and the per-category top-K
cosine-similarity search (`find_compatible_items`).

Embedding conventions:
* the four aligned sequences loaded by `load_features` (features, labels,
  image paths, class names) are bundled into a `FeatureStore`;
* the similarity engine is embedded over exact rationals (ℚ) standing in
  for the floating-point arithmetic of the source;
* `normalize_features` divides by a Euclidean norm, so that fragment is
  embedded over ℝ (the scaling factor is a square root);
* the `st.warning` emission of the source is reflected in the `warnings`
  field of the result, and the `RuntimeError` that `torch.matmul` raises
  on a shape mismatch becomes the `Except.error` branch.
-/

deriving instance DecidableEq for Except

namespace PolyvoreRec

/-- The immutable embedding database, as returned by `load_features` in
`src/app.py` (`all_features`, `all_labels`, `all_image_paths`, `classes`).
`vectors` holds the (already normalized) feature rows used by the search,
`labels.getD i 0` is the category index of row `i`, `image_paths.getD i ""`
locates the catalog image of row `i`, and `classes` names the categories. -/
structure FeatureStore where
  vectors : List (List ℚ)
  labels : List Nat
  image_paths : List String
  classes : List String
deriving DecidableEq

/-- The error a search request can fail with: `torch.matmul` in
`find_compatible_items` raises when the query dimension differs from the
store dimension (`src/app.py` line 115). -/
inductive SearchError where
  | DimensionMismatchError
deriving DecidableEq

/-- The observable outcome of `find_compatible_items`: the `compatibility`
dict (an insertion-ordered map from category name to the list of
recommended image paths) together with the `st.warning` messages emitted
while producing it. -/
structure SearchOutput where
  compatibility : List (String × List String)
  warnings : List String
deriving DecidableEq

/-- Dot product of two rows, `torch.matmul(query_feature, all_features.T)`
restricted to one row (`src/app.py` line 115).  Like the tensor product it
only pairs coordinates up to the shorter length. -/
def dot (u v : List ℚ) : ℚ :=
  (List.zipWith (fun a b => a * b) u v).sum

/-- Sum of squared entries of a vector: the square of its L2 norm. -/
def sumSq {R : Type} [Mul R] [Add R] [Zero R] (v : List R) : R :=
  (v.map (fun x => x * x)).sum

/-- The whole-database similarity vector of `src/app.py` line 115:
`similarities = torch.matmul(query_feature, all_features.T).squeeze(0)`. -/
def similaritiesOf (q : List ℚ) (vecs : List (List ℚ)) : List ℚ :=
  vecs.map (fun v => dot q v)

/-- `cat_item_indices = [i for i, label in enumerate(all_labels) if label == cat_idx]`
(`src/app.py` line 119): the store rows of one category, in store order. -/
def catItemIndices (labels : List Nat) (catIdx : Nat) : List Nat :=
  ((labels.enum).filter (fun p => p.2 == catIdx)).map Prod.fst

/-- The order in which `torch.topk` ranks positions of the score list `xs`:
position `i` comes no later than position `j` when its value is larger, or
when the values are equal and `i` is the smaller position.  This is the
deterministic tie-breaking the CPU implementation exhibits for a sorted
top-k result. -/
def rankLE (xs : List ℚ) (i j : Nat) : Prop :=
  xs.getD j 0 < xs.getD i 0 ∨ (xs.getD i 0 = xs.getD j 0 ∧ i ≤ j)

instance (xs : List ℚ) : DecidableRel (rankLE xs) := fun i j =>
  inferInstanceAs (Decidable (xs.getD j 0 < xs.getD i 0 ∨ (xs.getD i 0 = xs.getD j 0 ∧ i ≤ j)))

/-- Model of `torch.topk(xs, k).indices` (`src/app.py` line 125): the
positions of the `k` largest entries of `xs`, listed by descending value
with ties broken by ascending position.  (The caller always passes
`k ≤ xs.length`.)  The corresponding `values` are recovered by indexing
`xs` at these positions. -/
def topkIndices (xs : List ℚ) (k : Nat) : List Nat :=
  (List.insertionSort (rankLE xs) (List.range xs.length)).take k

/-- Lines 119-126 of `src/app.py` for one category: the original store rows
selected for `cat_idx`, in output order
(`topk_original_indices = [cat_item_indices[i] for i in topk_indices]`). -/
def categorySelection (labels : List Nat) (sims : List ℚ) (top_k catIdx : Nat) : List Nat :=
  let cat_item_indices := catItemIndices labels catIdx
  let cat_similarities := cat_item_indices.map (fun i => sims.getD i 0)
  let topk := min top_k cat_similarities.length
  (topkIndices cat_similarities topk).map (fun p => cat_item_indices.getD p 0)

/-- The dict value stored at `classes[cat_idx]` by `src/app.py` lines
127-128: the image paths of the selected rows. -/
def mkCategoryEntry (s : FeatureStore) (sims : List ℚ) (top_k catIdx : Nat) :
    String × List String :=
  (s.classes.getD catIdx "",
   (categorySelection s.labels sims top_k catIdx).map (fun i => s.image_paths.getD i ""))

/-- One iteration of the `for cat_idx in target_indices` loop of
`src/app.py` lines 118-128: skip an empty category, otherwise add its
entry to the `compatibility` dict (modelled as an insertion-ordered
association list). -/
def compatStep (s : FeatureStore) (sims : List ℚ) (top_k : Nat)
    (acc : List (String × List String)) (catIdx : Nat) : List (String × List String) :=
  if (catItemIndices s.labels catIdx).isEmpty then acc
  else acc ++ [mkCategoryEntry s sims top_k catIdx]

/-- The whole loop of `src/app.py` lines 118-128. -/
def compatFold (s : FeatureStore) (sims : List ℚ) (top_k : Nat)
    (targets : List Nat) : List (String × List String) :=
  targets.foldl (compatStep s sims top_k) []

/-- `target_indices = [classes.index(cat) for cat in target_categories if cat in classes]`
(`src/app.py` lines 106-107). -/
def targetIndicesOf (classes cats : List String) : List Nat :=
  (cats.filter (fun c => classes.contains c)).map (fun c => classes.indexOf c)

/-- The message of the `st.warning` call at `src/app.py` lines 110-111. -/
def noValidCategoriesWarning : String :=
  "No valid target categories found. Please check the category names and their cases."

/-- `find_compatible_items` of `src/app.py` lines 104-129 over a
`FeatureStore` (the source reads `classes` from module scope and receives
the other three sequences as arguments).  The empty-`target_indices` early
return precedes the similarity computation, so the dict and the warning of
that branch are produced even for a malformed query; otherwise a query
whose dimension differs from a store row fails like `torch.matmul` does. -/
def find_compatible_items (query_feature : List ℚ) (s : FeatureStore)
    (target_categories : List String) (top_k : Nat) : Except SearchError SearchOutput :=
  let target_indices := targetIndicesOf s.classes target_categories
  if target_indices.isEmpty then
    .ok ⟨[], [noValidCategoriesWarning]⟩
  else if s.vectors.any (fun v => v.length != query_feature.length) then
    .error .DimensionMismatchError
  else
    .ok ⟨compatFold s (similaritiesOf query_feature s.vectors) top_k target_indices, []⟩

/-- Per-spec result shape (spec §3, `CompatibilityResult`): a category maps
to an ordered sequence of (itemPath, similarityScore) pairs.  This
definition follows the spec's words and exists to be compared with the
source's `SearchOutput`, whose entries are bare paths. -/
structure SpecOutput where
  compatibility : List (String × List (String × ℚ))
  warnings : List String
deriving DecidableEq

/-- The spec's category entry (spec §4.2 step 5): the selected rows paired
as `(itemPath, score)`, in the same order the source emits. -/
def mkCategoryEntrySpec (s : FeatureStore) (sims : List ℚ) (top_k catIdx : Nat) :
    String × List (String × ℚ) :=
  (s.classes.getD catIdx "",
   (categorySelection s.labels sims top_k catIdx).map
     (fun i => (s.image_paths.getD i "", sims.getD i 0)))

/-- The per-category loop, emitting the spec's (path, score) pairs. -/
def compatStepSpec (s : FeatureStore) (sims : List ℚ) (top_k : Nat)
    (acc : List (String × List (String × ℚ))) (catIdx : Nat) :
    List (String × List (String × ℚ)) :=
  if (catItemIndices s.labels catIdx).isEmpty then acc
  else acc ++ [mkCategoryEntrySpec s sims top_k catIdx]

/-- The whole loop, emitting the spec's (path, score) pairs. -/
def compatFoldSpec (s : FeatureStore) (sims : List ℚ) (top_k : Nat)
    (targets : List Nat) : List (String × List (String × ℚ)) :=
  targets.foldl (compatStepSpec s sims top_k) []

/-- The search operation as the spec describes it (spec §4.2): identical to
`find_compatible_items` except that each emitted element carries both the
item path and its similarity score. -/
def find_compatible_items_spec (query_feature : List ℚ) (s : FeatureStore)
    (target_categories : List String) (top_k : Nat) : Except SearchError SpecOutput :=
  let target_indices := targetIndicesOf s.classes target_categories
  if target_indices.isEmpty then
    .ok ⟨[], [noValidCategoriesWarning]⟩
  else if s.vectors.any (fun v => v.length != query_feature.length) then
    .error .DimensionMismatchError
  else
    .ok ⟨compatFoldSpec s (similaritiesOf query_feature s.vectors) top_k target_indices, []⟩

/-- Forget the scores of a spec-shaped result, keeping each category's
paths in order. -/
def stripScores (r : Except SearchError SpecOutput) : Except SearchError SearchOutput :=
  r.map (fun out => ⟨out.compatibility.map (fun e => (e.1, e.2.map Prod.fst)), out.warnings⟩)

/-- `find_compatible_items` with the shared store threaded as explicit
state: the source only ever reads `all_features`, `all_labels`,
`all_image_paths` and `classes`, so the state component is returned
untouched. -/
def searchWithStore (s : FeatureStore) (query_feature : List ℚ)
    (target_categories : List String) (top_k : Nat) :
    FeatureStore × Except SearchError SearchOutput :=
  (s, find_compatible_items query_feature s target_categories top_k)

/-- One row of `sklearn.preprocessing.normalize(X, axis=1)` as called by
`normalize_features` (`src/app.py` line 66): divide the row by its L2 norm,
except that a row whose norm is zero is divided by 1, i.e. returned
unchanged (sklearn replaces zero norms by one; no exception is raised and
no NaN is produced).  Embedded over ℝ because the norm is a square root;
`noncomputable` because `Real.sqrt` is. -/
noncomputable def l2NormalizeRow (v : List ℝ) : List ℝ :=
  if Real.sqrt (sumSq v) = 0 then v
  else v.map (fun x => x / Real.sqrt (sumSq v))

/-- `normalize_features` of `src/app.py` lines 63-67: row-wise L2
normalization of the feature matrix (the torch/numpy round trip does not
change the values). -/
noncomputable def normalize_features (features : List (List ℝ)) : List (List ℝ) :=
  features.map l2NormalizeRow

/-- The ordering the spec asserts for a category's emitted sequence
(spec §4.2 steps 4-5): store row `i` precedes store row `j` when its
similarity is strictly larger, or when the similarities are equal and `i`
is the smaller original store index. -/
def resultOrder (sims : List ℚ) (i j : Nat) : Prop :=
  sims.getD j 0 < sims.getD i 0 ∨ (sims.getD i 0 = sims.getD j 0 ∧ i < j)

/-! ### Concrete stores used to exercise the claims -/

/-- The 3-item store of the spec's §8 concrete scenarios: two tops and one
pair of pants, all rows unit-normalized. -/
def demoStore : FeatureStore :=
  ⟨[[1, 0], [0, 1], [1, 0]], [0, 0, 1], ["a.jpg", "b.jpg", "c.jpg"], ["tops", "pants"]⟩

/-- A one-item store whose single vector scores 1 against the query `[1]`. -/
def scoreStoreA : FeatureStore := ⟨[[1]], [0], ["a.jpg"], ["tops"]⟩

/-- Identical to `scoreStoreA` except the stored vector scores 1/2 against
the query `[1]`. -/
def scoreStoreB : FeatureStore := ⟨[[1 / 2]], [0], ["a.jpg"], ["tops"]⟩

/-- A store holding two identical unit vectors in the same category. -/
def dupStore : FeatureStore := ⟨[[1], [1]], [0, 0], ["a.jpg", "b.jpg"], ["tops"]⟩

/-- A store of two distinct unit vectors in two categories. -/
def unitStore : FeatureStore :=
  ⟨[[1, 0], [0, 1]], [0, 1], ["a.jpg", "b.jpg"], ["tops", "pants"]⟩

/-! ### Properties of the ranking order used by the top-k model -/

instance (xs : List ℚ) : IsTotal Nat (rankLE xs) := ⟨by
  intro i j
  rcases lt_trichotomy (xs.getD i 0) (xs.getD j 0) with h | h | h
  · exact Or.inr (Or.inl h)
  · rcases Nat.le_total i j with hij | hij
    · exact Or.inl (Or.inr ⟨h, hij⟩)
    · exact Or.inr (Or.inr ⟨h.symm, hij⟩)
  · exact Or.inl (Or.inl h)⟩

instance (xs : List ℚ) : IsTrans Nat (rankLE xs) := ⟨by
  intro i j k hij hjk
  rcases hij with h1 | ⟨e1, l1⟩ <;> rcases hjk with h2 | ⟨e2, l2⟩
  · exact Or.inl (lt_trans h2 h1)
  · exact Or.inl (e2 ▸ h1)
  · exact Or.inl (by rw [e1]; exact h2)
  · exact Or.inr ⟨e1.trans e2, le_trans l1 l2⟩⟩

theorem topkIndices_sorted (xs : List ℚ) (k : Nat) :
    List.Pairwise (rankLE xs) (topkIndices xs k) :=
  List.Pairwise.sublist (List.take_sublist _ _) (List.sorted_insertionSort _ _)

theorem topkIndices_nodup (xs : List ℚ) (k : Nat) : (topkIndices xs k).Nodup :=
  List.Sublist.nodup (List.take_sublist _ _)
    ((List.perm_insertionSort (rankLE xs) _).symm.nodup (List.nodup_range _))

theorem mem_topkIndices_lt {xs : List ℚ} {k p : Nat} (h : p ∈ topkIndices xs k) :
    p < xs.length := by
  have h1 : p ∈ List.insertionSort (rankLE xs) (List.range xs.length) :=
    (List.take_sublist _ _).subset h
  exact List.mem_range.mp ((List.perm_insertionSort (rankLE xs) _).mem_iff.mp h1)

theorem topkIndices_length (xs : List ℚ) (k : Nat) :
    (topkIndices xs k).length = min k xs.length := by
  simp [topkIndices, List.length_take, List.length_insertionSort, List.length_range]

theorem topkIndices_head_rank {xs : List ℚ} {k p : Nat} {rest : List Nat}
    (h : topkIndices xs k = p :: rest) : ∀ q, q < xs.length → rankLE xs p q := by
  intro q hq
  cases hsort : List.insertionSort (rankLE xs) (List.range xs.length) with
  | nil =>
    rw [topkIndices, hsort] at h
    simp at h
  | cons a t =>
    rw [topkIndices, hsort] at h
    cases k with
    | zero => simp at h
    | succ k2 =>
      rw [List.take_succ_cons] at h
      have ha : a = p := (List.cons.injEq _ _ _ _ ▸ h).1
      have hsorted : List.Sorted (rankLE xs) (a :: t) :=
        hsort ▸ List.sorted_insertionSort (rankLE xs) (List.range xs.length)
      have hq' : q ∈ a :: t := by
        have h1 : q ∈ List.range xs.length := List.mem_range.mpr hq
        have h2 := (List.perm_insertionSort (rankLE xs) (List.range xs.length)).mem_iff.mpr h1
        rwa [hsort] at h2
      rcases List.mem_cons.mp hq' with rfl | hmem
      · exact ha ▸ Or.inr ⟨rfl, le_refl _⟩
      · exact ha ▸ (List.sorted_cons.mp hsorted).1 q hmem

/-! ### Properties of the per-category row list -/

theorem catItemIndices_aux (c : Nat) (ls : List Nat) :
    ∀ n : Nat, ((List.enumFrom n ls).filter (fun p => p.2 == c)).map Prod.fst
      = ((List.range ls.length).filter (fun j => ls.getD j 0 == c)).map (fun j => j + n) := by
  induction ls with
  | nil => intro n; simp
  | cons a t ih =>
    intro n
    have hcomp : ((fun j => (a :: t).getD j 0 == c) ∘ Nat.succ) = (fun j => t.getD j 0 == c) := by
      funext j
      simp [Function.comp, List.getD_cons_succ]
    have harith : ((fun j => j + n) ∘ Nat.succ) = (fun j => j + (n + 1)) := by
      funext j
      simp [Function.comp]
      omega
    cases h : (a == c) with
    | true =>
      simp only [List.enumFrom_cons, List.filter_cons, h, List.length_cons,
        List.range_succ_eq_map, List.getD_cons_zero, List.map_cons, ih (n + 1),
        List.filter_map, hcomp, List.map_map, harith, if_true, Nat.zero_add]
    | false =>
      simp only [List.enumFrom_cons, List.filter_cons, h, List.length_cons,
        List.range_succ_eq_map, List.getD_cons_zero, List.map_cons, ih (n + 1),
        List.filter_map, hcomp, List.map_map, harith, if_false, Bool.false_eq_true]

theorem catItemIndices_eq_range_filter (ls : List Nat) (c : Nat) :
    catItemIndices ls c = (List.range ls.length).filter (fun j => ls.getD j 0 == c) := by
  unfold catItemIndices
  have h := catItemIndices_aux c ls 0
  simpa [List.enum] using h

theorem mem_catItemIndices {ls : List Nat} {c j : Nat} :
    j ∈ catItemIndices ls c ↔ j < ls.length ∧ ls.getD j 0 = c := by
  rw [catItemIndices_eq_range_filter]
  simp [List.mem_filter, List.mem_range]

theorem catItemIndices_sorted (ls : List Nat) (c : Nat) :
    List.Pairwise (fun i j => i < j) (catItemIndices ls c) := by
  rw [catItemIndices_eq_range_filter]
  exact (List.pairwise_lt_range _).filter _

theorem catItemIndices_nodup (ls : List Nat) (c : Nat) : (catItemIndices ls c).Nodup :=
  (catItemIndices_sorted ls c).imp (fun h => Nat.ne_of_lt h)

theorem catItemIndices_length (ls : List Nat) (c : Nat) :
    (catItemIndices ls c).length = ls.count c := by
  unfold catItemIndices
  rw [List.length_map]
  suffices h : ∀ (ls : List Nat) (n : Nat),
      ((List.enumFrom n ls).filter (fun p => p.2 == c)).length = ls.count c by
    simpa [List.enum] using h ls 0
  intro ls
  induction ls with
  | nil => intro n; simp
  | cons a t ih =>
    intro n
    cases h : (a == c) <;>
      simp [List.enumFrom_cons, List.filter_cons, h, ih, List.count_cons]

theorem catItemIndices_getD_lt (ls : List Nat) (c : Nat) {p q : Nat}
    (hp : p < (catItemIndices ls c).length) (hq : q < (catItemIndices ls c).length)
    (hpq : p < q) : (catItemIndices ls c).getD p 0 < (catItemIndices ls c).getD q 0 := by
  rw [List.getD_eq_getElem _ _ hp, List.getD_eq_getElem _ _ hq]
  have hs := catItemIndices_sorted ls c
  have := List.pairwise_iff_get.mp hs ⟨p, hp⟩ ⟨q, hq⟩ hpq
  simpa using this

/-! ### Ordering of a category's selected rows -/

theorem getD_map_sims (cis : List Nat) (sims : List ℚ) {p : Nat} (hp : p < cis.length) :
    (cis.map (fun i => sims.getD i 0)).getD p 0 = sims.getD (cis.getD p 0) 0 := by
  rw [List.getD_eq_getElem _ _ (by simpa using hp), List.getElem_map,
    List.getD_eq_getElem _ _ hp]

theorem categorySelection_pairwise (ls : List Nat) (sims : List ℚ) (top_k c : Nat) :
    List.Pairwise (resultOrder sims) (categorySelection ls sims top_k c) := by
  unfold categorySelection
  rw [List.pairwise_map]
  have hpw := (topkIndices_sorted ((catItemIndices ls c).map (fun i => sims.getD i 0))
    (min top_k ((catItemIndices ls c).map (fun i => sims.getD i 0)).length)).and
    (topkIndices_nodup _ _)
  refine hpw.imp_of_mem ?_
  intro p q hp hq hpq
  have hp' : p < (catItemIndices ls c).length := by
    have := mem_topkIndices_lt hp
    simpa using this
  have hq' : q < (catItemIndices ls c).length := by
    have := mem_topkIndices_lt hq
    simpa using this
  rcases hpq with ⟨hrank | ⟨heq, hle⟩, hne⟩
  · rw [getD_map_sims _ _ hq', getD_map_sims _ _ hp'] at hrank
    exact Or.inl hrank
  · rw [getD_map_sims _ _ hp', getD_map_sims _ _ hq'] at heq
    have hlt : p < q := lt_of_le_of_ne hle hne
    exact Or.inr ⟨heq, catItemIndices_getD_lt ls c hp' hq' hlt⟩

theorem categorySelection_nodup (ls : List Nat) (sims : List ℚ) (top_k c : Nat) :
    (categorySelection ls sims top_k c).Nodup := by
  unfold categorySelection
  refine List.Nodup.map_on ?_ (topkIndices_nodup _ _)
  intro p hp q hq hpq
  have hp' : p < (catItemIndices ls c).length := by
    have := mem_topkIndices_lt hp
    simpa using this
  have hq' : q < (catItemIndices ls c).length := by
    have := mem_topkIndices_lt hq
    simpa using this
  by_contra hne
  rcases Nat.lt_or_ge p q with h | h
  · exact absurd hpq (Nat.ne_of_lt (catItemIndices_getD_lt ls c hp' hq' h))
  · have h2 : q < p := lt_of_le_of_ne h (fun e => hne e.symm)
    exact absurd hpq.symm (Nat.ne_of_lt (catItemIndices_getD_lt ls c hq' hp' h2))

theorem categorySelection_length (ls : List Nat) (sims : List ℚ) (top_k c : Nat) :
    (categorySelection ls sims top_k c).length = min top_k (ls.count c) := by
  unfold categorySelection
  rw [List.length_map, topkIndices_length, List.length_map, catItemIndices_length]
  omega

theorem mem_categorySelection_bound {ls : List Nat} {sims : List ℚ} {top_k c i : Nat}
    (h : i ∈ categorySelection ls sims top_k c) : i ∈ catItemIndices ls c := by
  unfold categorySelection at h
  rcases List.mem_map.mp h with ⟨p, hp, rfl⟩
  have hp' : p < (catItemIndices ls c).length := by
    have := mem_topkIndices_lt hp
    simpa using this
  rw [List.getD_eq_getElem _ _ hp']
  exact List.getElem_mem hp'

/-! ### The dict assembled by the category loop -/

theorem foldl_compatStep (s : FeatureStore) (sims : List ℚ) (top_k : Nat) :
    ∀ (targets : List Nat) (acc : List (String × List String)),
      targets.foldl (compatStep s sims top_k) acc
        = acc ++ (targets.filter
            (fun c => !(catItemIndices s.labels c).isEmpty)).map
            (mkCategoryEntry s sims top_k) := by
  intro targets
  induction targets with
  | nil => intro acc; simp
  | cons c ts ih =>
    intro acc
    cases h : (catItemIndices s.labels c).isEmpty <;>
      simp [List.foldl_cons, compatStep, h, ih, List.filter_cons]

theorem compatFold_eq (s : FeatureStore) (sims : List ℚ) (top_k : Nat) (targets : List Nat) :
    compatFold s sims top_k targets
      = (targets.filter (fun c => !(catItemIndices s.labels c).isEmpty)).map
          (mkCategoryEntry s sims top_k) := by
  unfold compatFold
  simpa using foldl_compatStep s sims top_k targets []

theorem foldl_compatStepSpec (s : FeatureStore) (sims : List ℚ) (top_k : Nat) :
    ∀ (targets : List Nat) (acc : List (String × List (String × ℚ))),
      targets.foldl (compatStepSpec s sims top_k) acc
        = acc ++ (targets.filter
            (fun c => !(catItemIndices s.labels c).isEmpty)).map
            (mkCategoryEntrySpec s sims top_k) := by
  intro targets
  induction targets with
  | nil => intro acc; simp
  | cons c ts ih =>
    intro acc
    cases h : (catItemIndices s.labels c).isEmpty <;>
      simp [List.foldl_cons, compatStepSpec, h, ih, List.filter_cons]

theorem compatFoldSpec_eq (s : FeatureStore) (sims : List ℚ) (top_k : Nat)
    (targets : List Nat) :
    compatFoldSpec s sims top_k targets
      = (targets.filter (fun c => !(catItemIndices s.labels c).isEmpty)).map
          (mkCategoryEntrySpec s sims top_k) := by
  unfold compatFoldSpec
  simpa using foldl_compatStepSpec s sims top_k targets []

theorem mem_compatFold {s : FeatureStore} {sims : List ℚ} {top_k : Nat}
    {targets : List Nat} {e : String × List String} :
    e ∈ compatFold s sims top_k targets ↔
      ∃ c, c ∈ targets ∧ catItemIndices s.labels c ≠ [] ∧
        e = mkCategoryEntry s sims top_k c := by
  rw [compatFold_eq]
  simp only [List.mem_map, List.mem_filter, Bool.not_eq_true', List.isEmpty_eq_false]
  constructor
  · rintro ⟨c, ⟨hc, hne⟩, rfl⟩
    exact ⟨c, hc, hne, rfl⟩
  · rintro ⟨c, hc, hne, rfl⟩
    exact ⟨c, ⟨hc, hne⟩, rfl⟩

/-! ### Inversion of the search operation -/

theorem find_ok_cases {q : List ℚ} {s : FeatureStore} {cats : List String} {top_k : Nat}
    {out : SearchOutput} (h : find_compatible_items q s cats top_k = .ok out) :
    (out = ⟨[], [noValidCategoriesWarning]⟩ ∧ targetIndicesOf s.classes cats = []) ∨
    (targetIndicesOf s.classes cats ≠ [] ∧
     s.vectors.any (fun v => v.length != q.length) = false ∧
     out = ⟨compatFold s (similaritiesOf q s.vectors) top_k (targetIndicesOf s.classes cats),
            []⟩) := by
  simp only [find_compatible_items] at h
  split at h
  · rename_i hempty
    exact Or.inl ⟨(Except.ok.injEq _ _ ▸ h).symm, List.isEmpty_iff.mp hempty⟩
  · split at h
    · exact absurd h (by simp)
    · rename_i hempty hdim
      refine Or.inr ⟨fun he => hempty (by simp [he]), ?_, (Except.ok.injEq _ _ ▸ h).symm⟩
      simpa using hdim

theorem find_ok_of {q : List ℚ} {s : FeatureStore} {cats : List String} {top_k : Nat}
    (hne : targetIndicesOf s.classes cats ≠ [])
    (hdim : s.vectors.any (fun v => v.length != q.length) = false) :
    find_compatible_items q s cats top_k
      = .ok ⟨compatFold s (similaritiesOf q s.vectors) top_k (targetIndicesOf s.classes cats),
             []⟩ := by
  simp only [find_compatible_items]
  rw [if_neg (by simpa [List.isEmpty_iff] using hne), if_neg (by simp [hdim])]

theorem mem_of_find_ok {q : List ℚ} {s : FeatureStore} {cats : List String} {top_k : Nat}
    {out : SearchOutput} {cat : String} {paths : List String}
    (h : find_compatible_items q s cats top_k = .ok out)
    (hm : (cat, paths) ∈ out.compatibility) :
    ∃ c, c ∈ targetIndicesOf s.classes cats ∧
      catItemIndices s.labels c ≠ [] ∧
      cat = s.classes.getD c "" ∧
      paths = (categorySelection s.labels (similaritiesOf q s.vectors) top_k c).map
        (fun i => s.image_paths.getD i "") := by
  rcases find_ok_cases h with ⟨rfl, -⟩ | ⟨-, -, rfl⟩
  · simp at hm
  · rcases mem_compatFold.mp hm with ⟨c, hc, hne, he⟩
    have h1 : cat = s.classes.getD c "" := congrArg Prod.fst he
    have h2 : paths = (categorySelection s.labels (similaritiesOf q s.vectors) top_k c).map
        (fun i => s.image_paths.getD i "") := congrArg Prod.snd he
    exact ⟨c, hc, hne, h1, h2⟩

/-! ### Algebra of dot products and squared norms -/

theorem sumSq_nonneg {R : Type} [LinearOrderedRing R] (v : List R) : 0 ≤ sumSq v := by
  induction v with
  | nil => simp [sumSq]
  | cons a t ih =>
    simp only [sumSq, List.map_cons, List.sum_cons] at ih ⊢
    exact add_nonneg (mul_self_nonneg a) ih

theorem dot_self (v : List ℚ) : dot v v = sumSq v := by
  induction v with
  | nil => simp [dot, sumSq]
  | cons a t ih =>
    simp only [dot, sumSq, List.zipWith_cons_cons, List.map_cons, List.sum_cons] at ih ⊢
    rw [ih]

theorem two_mul_dot_le (u v : List ℚ) : 2 * dot u v ≤ sumSq u + sumSq v := by
  induction u generalizing v with
  | nil =>
    simp only [dot, List.zipWith_nil_left, List.sum_nil, mul_zero]
    have := sumSq_nonneg (R := ℚ) v
    have := sumSq_nonneg (R := ℚ) ([] : List ℚ)
    linarith
  | cons a t ih =>
    cases v with
    | nil =>
      simp only [dot, List.zipWith_nil_right, List.sum_nil, mul_zero]
      have := sumSq_nonneg (R := ℚ) (a :: t)
      have := sumSq_nonneg (R := ℚ) ([] : List ℚ)
      linarith
    | cons b w =>
      have hab : 2 * (a * b) ≤ a * a + b * b := by nlinarith [sq_nonneg (a - b)]
      have ih2 := ih w
      simp only [dot, sumSq, List.zipWith_cons_cons, List.map_cons, List.sum_cons] at ih2 ⊢
      linarith

theorem dot_le_one {u v : List ℚ} (hu : sumSq u = 1) (hv : sumSq v = 1) : dot u v ≤ 1 := by
  have := two_mul_dot_le u v
  rw [hu, hv] at this
  linarith

theorem sumSq_zipWith_sub (u v : List ℚ) (hl : u.length = v.length) :
    sumSq (List.zipWith (fun a b => a - b) u v) = sumSq u + sumSq v - 2 * dot u v := by
  induction u generalizing v with
  | nil =>
    cases v with
    | nil => simp [sumSq, dot]
    | cons b w => simp at hl
  | cons a t ih =>
    cases v with
    | nil => simp at hl
    | cons b w =>
      have hl2 : t.length = w.length := by simpa using hl
      have ih2 := ih w hl2
      simp only [sumSq, dot, List.zipWith_cons_cons, List.map_cons, List.sum_cons] at ih2 ⊢
      rw [ih2]
      ring

theorem eq_of_sumSq_zipWith_sub_eq_zero {u v : List ℚ} (hl : u.length = v.length)
    (h : sumSq (List.zipWith (fun a b => a - b) u v) = 0) : u = v := by
  induction u generalizing v with
  | nil =>
    cases v with
    | nil => rfl
    | cons b w => simp at hl
  | cons a t ih =>
    cases v with
    | nil => simp at hl
    | cons b w =>
      have hl2 : t.length = w.length := by simpa using hl
      simp only [sumSq, List.zipWith_cons_cons, List.map_cons, List.sum_cons] at h
      have h1 : 0 ≤ (a - b) * (a - b) := mul_self_nonneg _
      have h2 : 0 ≤ sumSq (List.zipWith (fun a b => a - b) t w) := sumSq_nonneg _
      have h3 : (a - b) * (a - b) = 0 := by
        simp only [sumSq] at h2
        linarith
      have h4 : sumSq (List.zipWith (fun a b => a - b) t w) = 0 := by
        simp only [sumSq] at h3 ⊢
        linarith
      have hab : a = b := by
        have := mul_self_eq_zero.mp h3
        linarith
      rw [hab, ih hl2 h4]

theorem eq_of_dot_eq_one {u v : List ℚ} (hl : u.length = v.length)
    (hu : sumSq u = 1) (hv : sumSq v = 1) (hd : dot u v = 1) : u = v := by
  apply eq_of_sumSq_zipWith_sub_eq_zero hl
  rw [sumSq_zipWith_sub u v hl, hu, hv, hd]
  ring

theorem similaritiesOf_getD {q : List ℚ} {vecs : List (List ℚ)} {j : Nat}
    (h : j < vecs.length) :
    (similaritiesOf q vecs).getD j 0 = dot q (vecs.getD j []) := by
  rw [similaritiesOf, List.getD_eq_getElem _ _ (by simpa using h), List.getElem_map,
    List.getD_eq_getElem _ _ h]

/-! ### Normalization facts (ℝ side) -/

theorem l2NormalizeRow_of_sumSq_eq_zero {v : List ℝ} (h : sumSq v = 0) :
    l2NormalizeRow v = v := by
  unfold l2NormalizeRow
  rw [if_pos (by rw [h, Real.sqrt_zero])]

theorem sumSq_map_div (v : List ℝ) (c : ℝ) :
    sumSq (v.map (fun x => x / c)) = sumSq v / (c * c) := by
  induction v with
  | nil => simp [sumSq]
  | cons a t ih =>
    simp only [sumSq, List.map_cons, List.sum_cons] at ih ⊢
    rw [ih, div_mul_div_comm, div_add_div_same]

theorem sumSq_l2NormalizeRow {v : List ℝ} (h : sumSq v ≠ 0) :
    sumSq (l2NormalizeRow v) = 1 := by
  have hnn : 0 ≤ sumSq v := sumSq_nonneg v
  have hpos : 0 < sumSq v := lt_of_le_of_ne hnn (Ne.symm h)
  have hsqrt : Real.sqrt (sumSq v) ≠ 0 := by
    have := Real.sqrt_pos.mpr hpos
    linarith
  unfold l2NormalizeRow
  rw [if_neg hsqrt, sumSq_map_div, Real.mul_self_sqrt hnn, div_self h]

theorem mem_normalize_features {rows : List (List ℝ)} {w : List ℝ} :
    w ∈ normalize_features rows ↔ ∃ v, v ∈ rows ∧ w = l2NormalizeRow v := by
  unfold normalize_features
  constructor
  · intro h
    rcases List.mem_map.mp h with ⟨v, hv, rfl⟩
    exact ⟨v, hv, rfl⟩
  · rintro ⟨v, hv, rfl⟩
    exact List.mem_map.mpr ⟨v, hv, rfl⟩

/-! ### indexOf on a duplicate-free class list -/

theorem indexOf_get_of_nodup {α : Type} [BEq α] [LawfulBEq α] (l : List α) (hnd : l.Nodup) :
    ∀ (c : Nat) (hc : c < l.length), l.indexOf (l.get ⟨c, hc⟩) = c := by
  induction l with
  | nil => intro c hc; simp at hc
  | cons a t ih =>
    intro c hc
    cases c with
    | zero => simp [List.indexOf_cons]
    | succ c2 =>
      have hc2 : c2 < t.length := by simpa using hc
      have hget : (a :: t).get ⟨c2 + 1, hc⟩ = t.get ⟨c2, hc2⟩ := rfl
      have hmem : t.get ⟨c2, hc2⟩ ∈ t := t.get_mem c2 hc2
      have hne : (a == t.get ⟨c2, hc2⟩) = false := by
        rw [beq_eq_false_iff_ne]
        intro he
        exact (List.nodup_cons.mp hnd).1 (he ▸ hmem)
      rw [hget, List.indexOf_cons, hne]
      have := ih (List.nodup_cons.mp hnd).2 c2 hc2
      simp only [List.get_eq_getElem] at this ⊢
      simp [this]

/-! ### The head of a category's selection -/

theorem categorySelection_head {ls : List Nat} {sims : List ℚ} {top_k c i : Nat}
    (hi : i ∈ catItemIndices ls c) (hk : 1 ≤ top_k)
    (hbest : ∀ j ∈ catItemIndices ls c, sims.getD j 0 ≤ sims.getD i 0)
    (huniq : ∀ j ∈ catItemIndices ls c, sims.getD j 0 = sims.getD i 0 → j = i) :
    (categorySelection ls sims top_k c).head? = some i := by
  have hcisLen : 0 < (catItemIndices ls c).length :=
    List.length_pos.mpr (fun h => by simp [h] at hi)
  have hcatLen : ((catItemIndices ls c).map (fun j => sims.getD j 0)).length
      = (catItemIndices ls c).length := List.length_map _ _
  obtain ⟨p, rest, hsel⟩ : ∃ p rest,
      topkIndices ((catItemIndices ls c).map (fun j => sims.getD j 0))
        (min top_k ((catItemIndices ls c).map (fun j => sims.getD j 0)).length)
        = p :: rest := by
    have hlen := topkIndices_length ((catItemIndices ls c).map (fun j => sims.getD j 0))
      (min top_k ((catItemIndices ls c).map (fun j => sims.getD j 0)).length)
    cases h : topkIndices ((catItemIndices ls c).map (fun j => sims.getD j 0))
        (min top_k ((catItemIndices ls c).map (fun j => sims.getD j 0)).length) with
    | nil =>
      rw [h] at hlen
      simp only [List.length_nil] at hlen
      rw [hcatLen] at hlen
      omega
    | cons a t => exact ⟨a, t, rfl⟩
  have hp : p < (catItemIndices ls c).length := by
    have hmem : p ∈ topkIndices ((catItemIndices ls c).map (fun j => sims.getD j 0))
        (min top_k ((catItemIndices ls c).map (fun j => sims.getD j 0)).length) := by
      rw [hsel]
      exact List.mem_cons_self _ _
    have := mem_topkIndices_lt hmem
    omega
  obtain ⟨pi, hpi, hgetpi⟩ := List.mem_iff_getElem.mp hi
  have hpiv : (catItemIndices ls c).getD pi 0 = i := by
    rw [List.getD_eq_getElem _ _ hpi]
    exact hgetpi
  have hrank := topkIndices_head_rank hsel pi (by omega)
  have hcsp := getD_map_sims (catItemIndices ls c) sims hp
  have hcspi := getD_map_sims (catItemIndices ls c) sims hpi
  have hpmem : (catItemIndices ls c).getD p 0 ∈ catItemIndices ls c := by
    rw [List.getD_eq_getElem _ _ hp]
    exact List.getElem_mem hp
  have hgp : (catItemIndices ls c).getD p 0 = i := by
    rcases hrank with hlt | ⟨heq, -⟩
    · exfalso
      rw [hcsp, hcspi, hpiv] at hlt
      exact absurd hlt (not_lt.mpr (hbest _ hpmem))
    · refine huniq _ hpmem ?_
      rw [hcsp, hcspi, hpiv] at heq
      exact heq
  unfold categorySelection
  dsimp only
  rw [hsel, List.map_cons, List.head?_cons, hgp]

/-! ### Claim C5: only unknown category names -/

/-- C5: when every requested category name is absent from the store's class
list, `find_compatible_items` returns normally with an empty compatibility
map and the non-fatal warning message; no error is raised. -/
theorem C5_unknown_categories_empty_result (q : List ℚ) (s : FeatureStore)
    (cats : List String) (top_k : Nat) (h : ∀ c ∈ cats, c ∉ s.classes) :
    find_compatible_items q s cats top_k = .ok ⟨[], [noValidCategoriesWarning]⟩ := by
  have hempty : targetIndicesOf s.classes cats = [] := by
    unfold targetIndicesOf
    rw [List.filter_eq_nil_iff.mpr (fun c hc => by simpa using h c hc)]
    rfl
  simp [find_compatible_items, hempty]

/-- Witness for C5 at a concrete input: requesting only the unknown name
"shoes" against the demo store yields the empty result plus the warning. -/
theorem C5_unknown_categories_empty_result_witness :
    find_compatible_items [1, 0] demoStore ["shoes"] 5
      = .ok ⟨[], [noValidCategoriesWarning]⟩ :=
  C5_unknown_categories_empty_result [1, 0] demoStore ["shoes"] 5
    (by intro c hc; simp at hc; simp [hc, demoStore])

/-! ### Claim C6: query dimension mismatch -/

/-- C6 counterexample: the demo store has dimension 2 and the query `[1]`
has dimension 1, yet because the only requested name "shoes" is unknown the
empty-categories early return (`src/app.py` lines 109-112) fires before the
`torch.matmul` call, so the request succeeds with an empty result instead of
failing with a dimension-mismatch error. -/
theorem C6_counterexample :
    demoStore.vectors.any (fun v => v.length != ([(1 : ℚ)]).length) = true ∧
    find_compatible_items [1] demoStore ["shoes"] 5
      = .ok ⟨[], [noValidCategoriesWarning]⟩ := by
  constructor
  · decide
  · have hempty : targetIndicesOf demoStore.classes ["shoes"] = [] := by decide
    simp [find_compatible_items, hempty]

/-- C6 (amended): when at least one requested category resolves, a query
whose dimension differs from a stored row's dimension makes
`find_compatible_items` fail with `DimensionMismatchError`; the store is an
input value, unaffected by the failed request. -/
theorem C6_dimension_mismatch_error (q : List ℚ) (s : FeatureStore)
    (cats : List String) (top_k : Nat)
    (hne : targetIndicesOf s.classes cats ≠ [])
    (hdim : s.vectors.any (fun v => v.length != q.length) = true) :
    find_compatible_items q s cats top_k = .error .DimensionMismatchError := by
  simp only [find_compatible_items]
  rw [if_neg (by simpa [List.isEmpty_iff] using hne), if_pos hdim]

/-- Witness for C6 (amended): a 1-dimensional query against the
2-dimensional demo store with the valid request "tops" fails. -/
theorem C6_dimension_mismatch_error_witness :
    find_compatible_items [1] demoStore ["tops"] 5 = .error .DimensionMismatchError :=
  C6_dimension_mismatch_error [1] demoStore ["tops"] 5 (by decide) (by decide)

/-! ### Claim C8: purity and idempotence -/

/-- C8: with the shared store threaded as explicit state, a search returns
the store unchanged, and running the same search again on the returned
store yields the identical result: the operation is a pure function of
(query, requestedCategories, topK, storeSnapshot). -/
theorem C8_search_pure_idempotent (s : FeatureStore) (q : List ℚ)
    (cats : List String) (top_k : Nat) :
    (searchWithStore s q cats top_k).1 = s ∧
    (searchWithStore (searchWithStore s q cats top_k).1 q cats top_k).2
      = (searchWithStore s q cats top_k).2 :=
  ⟨rfl, rfl⟩

/-! ### Claim C1: what the returned entries carry -/

/-- C1 counterexample: `scoreStoreA` and `scoreStoreB` agree on labels,
paths and classes but store different vectors, so the similarity scores of
the two searches differ — yet the two results are identical.  The returned
elements therefore cannot carry the similarity score; they are bare item
paths. -/
theorem C1_counterexample :
    find_compatible_items [1] scoreStoreA ["tops"] 5
      = find_compatible_items [1] scoreStoreB ["tops"] 5 ∧
    similaritiesOf [1] scoreStoreA.vectors ≠ similaritiesOf [1] scoreStoreB.vectors := by
  constructor
  · norm_num [find_compatible_items, scoreStoreA, scoreStoreB, targetIndicesOf,
      similaritiesOf, dot, compatFold, compatStep, mkCategoryEntry, categorySelection,
      catItemIndices, topkIndices, List.insertionSort, List.orderedInsert, rankLE,
      List.enum, List.enumFrom, List.filter, List.isEmpty, List.getD]
  · norm_num [similaritiesOf, dot, scoreStoreA, scoreStoreB]

/-- C1 (amended): every category entry of the result is the ordered
sequence of item paths of the spec-shaped result with the scores stripped:
the engine computes the (path, score) ranking the spec describes but emits
only the paths. -/
theorem C1_entries_are_paths_of_ranked_pairs (q : List ℚ) (s : FeatureStore)
    (cats : List String) (top_k : Nat) :
    find_compatible_items q s cats top_k
      = stripScores (find_compatible_items_spec q s cats top_k) := by
  by_cases h1 : (targetIndicesOf s.classes cats).isEmpty
  · simp [find_compatible_items, find_compatible_items_spec, stripScores, h1, Except.map]
  · cases h2 : s.vectors.any (fun v => v.length != q.length) with
    | true =>
      simp [find_compatible_items, find_compatible_items_spec, stripScores, h1, h2,
        Except.map]
    | false =>
      simp only [find_compatible_items, find_compatible_items_spec, stripScores, h1, h2,
        Bool.false_eq_true, if_false, Except.map]
      rw [compatFold_eq, compatFoldSpec_eq, List.map_map]
      have hmk : ((fun e : String × List (String × ℚ) => (e.1, e.2.map Prod.fst)) ∘
          mkCategoryEntrySpec s (similaritiesOf q s.vectors) top_k)
          = mkCategoryEntry s (similaritiesOf q s.vectors) top_k := by
        funext c
        simp [mkCategoryEntrySpec, mkCategoryEntry, Function.comp, List.map_map]
      rw [hmk]

/-! ### Claim C2: ordering of each category's sequence -/

/-- C2: every category binding of a search result lists the paths of a
selection of store rows whose similarity scores are non-increasing, equal
scores appearing in ascending original-store-index order (the
deterministic ordering `resultOrder`). -/
theorem C2_result_ordered (q : List ℚ) (s : FeatureStore) (cats : List String)
    (top_k : Nat) (out : SearchOutput) (cat : String) (paths : List String)
    (hok : find_compatible_items q s cats top_k = .ok out)
    (hm : (cat, paths) ∈ out.compatibility) :
    ∃ c sel, c ∈ targetIndicesOf s.classes cats ∧
      sel = categorySelection s.labels (similaritiesOf q s.vectors) top_k c ∧
      paths = sel.map (fun i => s.image_paths.getD i "") ∧
      List.Pairwise (resultOrder (similaritiesOf q s.vectors)) sel := by
  rcases mem_of_find_ok hok hm with ⟨c, hc, -, -, hpaths⟩
  exact ⟨c, _, hc, rfl, hpaths, categorySelection_pairwise _ _ _ _⟩

/-- Witness for C2 at a concrete input: the "tops" binding of a search
against the demo store. -/
theorem C2_result_ordered_witness :
    ∃ c sel, c ∈ targetIndicesOf demoStore.classes ["tops"] ∧
      sel = categorySelection demoStore.labels
        (similaritiesOf [1, 0] demoStore.vectors) 5 c ∧
      ["a.jpg", "b.jpg"] = sel.map (fun i => demoStore.image_paths.getD i "") ∧
      List.Pairwise (resultOrder (similaritiesOf [1, 0] demoStore.vectors)) sel :=
  C2_result_ordered [1, 0] demoStore ["tops"] 5 ⟨[("tops", ["a.jpg", "b.jpg"])], []⟩
    "tops" ["a.jpg", "b.jpg"]
    (by
      have ht : targetIndicesOf ["tops", "pants"] ["tops"] = [0] := by decide
      have hc0 : catItemIndices [0, 0, 1] 0 = [0, 1] := by decide
      have hs : similaritiesOf [1, 0] [[1, 0], [0, 1], [1, 0]] = [1, 0, 1] := by
        norm_num [similaritiesOf, dot]
      norm_num [find_compatible_items, demoStore, ht, hc0, hs, compatFold, compatStep,
        mkCategoryEntry, categorySelection, topkIndices, List.insertionSort,
        List.orderedInsert, rankLE, List.isEmpty, List.getD])
    (by simp)

/-! ### Claim C4: length of each category's sequence -/

/-- C4: every category binding of a search result has length
`min topK (number of store rows labeled with that category)`. -/
theorem C4_result_length (q : List ℚ) (s : FeatureStore) (cats : List String)
    (top_k : Nat) (out : SearchOutput) (cat : String) (paths : List String)
    (hok : find_compatible_items q s cats top_k = .ok out)
    (hm : (cat, paths) ∈ out.compatibility) :
    ∃ c, c ∈ targetIndicesOf s.classes cats ∧ cat = s.classes.getD c "" ∧
      paths.length = min top_k (s.labels.count c) := by
  rcases mem_of_find_ok hok hm with ⟨c, hc, -, hcat, hpaths⟩
  refine ⟨c, hc, hcat, ?_⟩
  rw [hpaths, List.length_map, categorySelection_length]

/-- Witness for C4 at a concrete input: the demo store holds two tops, so
with `topK = 5` the "tops" sequence has length `min 5 2 = 2`. -/
theorem C4_result_length_witness :
    ∃ c, c ∈ targetIndicesOf demoStore.classes ["tops"] ∧
      "tops" = demoStore.classes.getD c "" ∧
      (["a.jpg", "b.jpg"] : List String).length = min 5 (demoStore.labels.count c) :=
  C4_result_length [1, 0] demoStore ["tops"] 5 ⟨[("tops", ["a.jpg", "b.jpg"])], []⟩
    "tops" ["a.jpg", "b.jpg"]
    (by
      have ht : targetIndicesOf ["tops", "pants"] ["tops"] = [0] := by decide
      have hc0 : catItemIndices [0, 0, 1] 0 = [0, 1] := by decide
      have hs : similaritiesOf [1, 0] [[1, 0], [0, 1], [1, 0]] = [1, 0, 1] := by
        norm_num [similaritiesOf, dot]
      norm_num [find_compatible_items, demoStore, ht, hc0, hs, compatFold, compatStep,
        mkCategoryEntry, categorySelection, topkIndices, List.insertionSort,
        List.orderedInsert, rankLE, List.isEmpty, List.getD])
    (by simp)

/-! ### Claim C10: no repeated store row inside a category's sequence -/

/-- C10: every category binding of a search result is the image of a
duplicate-free list of store row indices: no catalog row appears twice
within a single category's sequence. -/
theorem C10_rows_distinct (q : List ℚ) (s : FeatureStore) (cats : List String)
    (top_k : Nat) (out : SearchOutput) (cat : String) (paths : List String)
    (hok : find_compatible_items q s cats top_k = .ok out)
    (hm : (cat, paths) ∈ out.compatibility) :
    ∃ c sel, c ∈ targetIndicesOf s.classes cats ∧
      sel = categorySelection s.labels (similaritiesOf q s.vectors) top_k c ∧
      paths = sel.map (fun i => s.image_paths.getD i "") ∧ sel.Nodup := by
  rcases mem_of_find_ok hok hm with ⟨c, hc, -, -, hpaths⟩
  exact ⟨c, _, hc, rfl, hpaths, categorySelection_nodup _ _ _ _⟩

/-- Witness for C10 at a concrete input: the "pants" binding of a search
against the demo store with `topK = 1`. -/
theorem C10_rows_distinct_witness :
    ∃ c sel, c ∈ targetIndicesOf demoStore.classes ["tops", "pants"] ∧
      sel = categorySelection demoStore.labels
        (similaritiesOf [1, 0] demoStore.vectors) 1 c ∧
      ["c.jpg"] = sel.map (fun i => demoStore.image_paths.getD i "") ∧ sel.Nodup :=
  C10_rows_distinct [1, 0] demoStore ["tops", "pants"] 1
    ⟨[("tops", ["a.jpg"]), ("pants", ["c.jpg"])], []⟩ "pants" ["c.jpg"]
    (by
      have ht : targetIndicesOf ["tops", "pants"] ["tops", "pants"] = [0, 1] := by decide
      have hc0 : catItemIndices [0, 0, 1] 0 = [0, 1] := by decide
      have hc1 : catItemIndices [0, 0, 1] 1 = [2] := by decide
      have hs : similaritiesOf [1, 0] [[1, 0], [0, 1], [1, 0]] = [1, 0, 1] := by
        norm_num [similaritiesOf, dot]
      norm_num [find_compatible_items, demoStore, ht, hc0, hc1, hs, compatFold,
        compatStep, mkCategoryEntry, categorySelection, topkIndices,
        List.insertionSort, List.orderedInsert, rankLE, List.isEmpty, List.getD])
    (by simp)

/-! ### Claim C3: zero-norm vectors at load time -/

/-- C3 counterexample: `normalize_features` on a database holding the
zero-norm row `[0, 0]` does not fail — there is no error path at all in the
source — and returns the zero row unchanged (sklearn's `normalize` replaces
a zero norm by one before dividing).  No `DegenerateVectorError` exists in
the code. -/
theorem C3_counterexample :
    normalize_features [[(0 : ℝ), 0]] = [[0, 0]] ∧ sumSq [(0 : ℝ), 0] = 0 := by
  constructor
  · simp [normalize_features, l2NormalizeRow, sumSq]
  · simp [sumSq]

/-- C3 (amended): loading a database containing a zero-norm vector
succeeds; the zero-norm row passes through `normalize_features` unchanged
(no exception, and no NaN: the row stays exactly zero). -/
theorem C3_zero_norm_row_loads_unchanged (rows : List (List ℝ)) (v : List ℝ)
    (hv : v ∈ rows) (h0 : sumSq v = 0) :
    l2NormalizeRow v = v ∧ v ∈ normalize_features rows := by
  have h := l2NormalizeRow_of_sumSq_eq_zero h0
  exact ⟨h, mem_normalize_features.mpr ⟨v, hv, h.symm⟩⟩

/-- Witness for C3 (amended) at the concrete zero row `[0, 0]`. -/
theorem C3_zero_norm_row_loads_unchanged_witness :
    l2NormalizeRow [(0 : ℝ), 0] = [0, 0] ∧ [(0 : ℝ), 0] ∈ normalize_features [[(0 : ℝ), 0]] :=
  C3_zero_norm_row_loads_unchanged [[(0 : ℝ), 0]] [(0 : ℝ), 0] (by simp) (by simp [sumSq])

/-! ### Claim C7: norms after a successful load -/

/-- C7 counterexample: after loading a database holding the zero row
`[0, 0]`, the normalized view still holds that row, whose squared L2 norm
is 0, not 1: not every vector of the normalized view is unit. -/
theorem C7_counterexample :
    sumSq ((normalize_features [[(0 : ℝ), 0]]).getD 0 []) ≠ 1 := by
  simp [normalize_features, l2NormalizeRow, sumSq]

/-- C7 (amended): after a load, every row of the normalized view has unit
L2 norm (squared norm 1) or is a zero-norm row left unchanged (squared
norm 0); rows of nonzero norm are always rescaled to unit norm, regardless
of their source norm. -/
theorem C7_rows_unit_or_zero (rows : List (List ℝ)) (w : List ℝ)
    (hw : w ∈ normalize_features rows) : sumSq w = 1 ∨ sumSq w = 0 := by
  rcases mem_normalize_features.mp hw with ⟨v, hv, rfl⟩
  by_cases h : sumSq v = 0
  · right
    rw [l2NormalizeRow_of_sumSq_eq_zero h, h]
  · left
    exact sumSq_l2NormalizeRow h

/-- Witness for C7 (amended) at the concrete row `[3, 4]` (norm 5). -/
theorem C7_rows_unit_or_zero_witness :
    sumSq (l2NormalizeRow [(3 : ℝ), 4]) = 1 ∨ sumSq (l2NormalizeRow [(3 : ℝ), 4]) = 0 :=
  C7_rows_unit_or_zero [[(3 : ℝ), 4]] (l2NormalizeRow [(3 : ℝ), 4])
    (mem_normalize_features.mpr ⟨[(3 : ℝ), 4], by simp, rfl⟩)

/-! ### Claim C9: querying with a stored vector -/

/-- C9 counterexample: `dupStore` is unit-normalized and the query equals
`vectors[1]`, whose path is "b.jpg" — yet the "tops" sequence starts with
"a.jpg": the equal-scoring duplicate at the smaller store index 0 takes the
top slot, so item 1 is not returned as its own top match. -/
theorem C9_counterexample :
    sumSq (dupStore.vectors.getD 0 []) = 1 ∧
    sumSq (dupStore.vectors.getD 1 []) = 1 ∧
    dupStore.image_paths.getD 1 "" = "b.jpg" ∧
    find_compatible_items (dupStore.vectors.getD 1 []) dupStore ["tops"] 5
      = .ok ⟨[("tops", ["a.jpg", "b.jpg"])], []⟩ ∧
    (["a.jpg", "b.jpg"] : List String).head? = some "a.jpg" ∧
    "a.jpg" ≠ dupStore.image_paths.getD 1 "" := by
  refine ⟨by norm_num [dupStore, sumSq], by norm_num [dupStore, sumSq], by decide,
    ?_, by decide, by decide⟩
  have ht : targetIndicesOf ["tops"] ["tops"] = [0] := by decide
  have hc0 : catItemIndices [0, 0] 0 = [0, 1] := by decide
  have hs : similaritiesOf [1] [[1], [1]] = [1, 1] := by norm_num [similaritiesOf, dot]
  norm_num [find_compatible_items, dupStore, ht, hc0, hs, compatFold, compatStep,
    mkCategoryEntry, categorySelection, topkIndices, List.insertionSort,
    List.orderedInsert, rankLE, List.isEmpty, List.getD]

/-- C9 (amended): over a unit-normalized store satisfying the §3 data-model
invariants, querying with `vectors[i]` while requesting the category of `i`
puts an item with similarity score 1 at the top of that category's
sequence, and that item is `i` itself provided no other row of the same
category stores a vector identical to `vectors[i]` (otherwise the earliest
such duplicate wins the score tie, as the counterexample shows).  The
query's own similarity is exactly 1. -/
theorem C9_query_row_is_top_match (s : FeatureStore) (i top_k : Nat) (cats : List String)
    (hN : i < s.vectors.length)
    (hlab : s.labels.length = s.vectors.length)
    (hcls : s.labels.getD i 0 < s.classes.length)
    (hnd : s.classes.Nodup)
    (hdim : ∀ v ∈ s.vectors, v.length = (s.vectors.getD i []).length)
    (hunit : ∀ v ∈ s.vectors, sumSq v = 1)
    (hk : 1 ≤ top_k)
    (hreq : s.classes.getD (s.labels.getD i 0) "" ∈ cats)
    (hdup : ∀ j, j < s.labels.length → s.labels.getD j 0 = s.labels.getD i 0 →
        s.vectors.getD j [] = s.vectors.getD i [] → j = i) :
    ∃ out, find_compatible_items (s.vectors.getD i []) s cats top_k = .ok out ∧
      (s.classes.getD (s.labels.getD i 0) "",
        (categorySelection s.labels (similaritiesOf (s.vectors.getD i []) s.vectors)
          top_k (s.labels.getD i 0)).map (fun j => s.image_paths.getD j ""))
        ∈ out.compatibility ∧
      ((categorySelection s.labels (similaritiesOf (s.vectors.getD i []) s.vectors)
          top_k (s.labels.getD i 0)).map (fun j => s.image_paths.getD j "")).head?
        = some (s.image_paths.getD i "") ∧
      (similaritiesOf (s.vectors.getD i []) s.vectors).getD i 0 = 1 := by
  have hqmem : s.vectors.getD i [] ∈ s.vectors := by
    rw [List.getD_eq_getElem _ _ hN]
    exact List.getElem_mem hN
  have hqunit : sumSq (s.vectors.getD i []) = 1 := hunit _ hqmem
  have hname : s.classes.getD (s.labels.getD i 0) ""
      = s.classes.get ⟨s.labels.getD i 0, hcls⟩ := by
    rw [List.getD_eq_getElem _ _ hcls]
    simp [List.get_eq_getElem]
  have hcontains : s.classes.contains (s.classes.getD (s.labels.getD i 0) "") = true := by
    rw [hname]
    simp
  have hidx : s.classes.indexOf (s.classes.getD (s.labels.getD i 0) "")
      = s.labels.getD i 0 := by
    rw [hname]
    exact indexOf_get_of_nodup s.classes hnd _ hcls
  have htarget : s.labels.getD i 0 ∈ targetIndicesOf s.classes cats := by
    unfold targetIndicesOf
    exact List.mem_map.mpr ⟨_, List.mem_filter.mpr ⟨hreq, hcontains⟩, hidx⟩
  have hne : targetIndicesOf s.classes cats ≠ [] := by
    intro h
    rw [h] at htarget
    simp at htarget
  have hdimok : s.vectors.any
      (fun v => v.length != (s.vectors.getD i []).length) = false := by
    rw [List.any_eq_false]
    intro v hv
    simp [hdim v hv]
  have hok := @find_ok_of (s.vectors.getD i []) s cats top_k hne hdimok
  have hiCat : i ∈ catItemIndices s.labels (s.labels.getD i 0) :=
    mem_catItemIndices.mpr ⟨by omega, rfl⟩
  have hcisne : catItemIndices s.labels (s.labels.getD i 0) ≠ [] := by
    intro h
    rw [h] at hiCat
    simp at hiCat
  have hsim_i : (similaritiesOf (s.vectors.getD i []) s.vectors).getD i 0 = 1 := by
    rw [similaritiesOf_getD hN, dot_self, hqunit]
  have hsim_le : ∀ j, j < s.vectors.length →
      (similaritiesOf (s.vectors.getD i []) s.vectors).getD j 0 ≤ 1 := by
    intro j hj
    rw [similaritiesOf_getD hj]
    refine dot_le_one hqunit (hunit _ ?_)
    rw [List.getD_eq_getElem _ _ hj]
    exact List.getElem_mem hj
  have hsim_eq1 : ∀ j, j < s.vectors.length →
      (similaritiesOf (s.vectors.getD i []) s.vectors).getD j 0 = 1 →
      s.vectors.getD j [] = s.vectors.getD i [] := by
    intro j hj h1
    rw [similaritiesOf_getD hj] at h1
    have hjmem : s.vectors.getD j [] ∈ s.vectors := by
      rw [List.getD_eq_getElem _ _ hj]
      exact List.getElem_mem hj
    have hlen : (s.vectors.getD i []).length = (s.vectors.getD j []).length :=
      (hdim _ hjmem).symm
    exact (eq_of_dot_eq_one hlen hqunit (hunit _ hjmem) h1).symm
  have hbest : ∀ j ∈ catItemIndices s.labels (s.labels.getD i 0),
      (similaritiesOf (s.vectors.getD i []) s.vectors).getD j 0
        ≤ (similaritiesOf (s.vectors.getD i []) s.vectors).getD i 0 := by
    intro j hj
    rcases mem_catItemIndices.mp hj with ⟨hjlen, -⟩
    rw [hsim_i]
    exact hsim_le j (by omega)
  have huniq : ∀ j ∈ catItemIndices s.labels (s.labels.getD i 0),
      (similaritiesOf (s.vectors.getD i []) s.vectors).getD j 0
        = (similaritiesOf (s.vectors.getD i []) s.vectors).getD i 0 → j = i := by
    intro j hj h1
    rcases mem_catItemIndices.mp hj with ⟨hjlen, hjlab⟩
    rw [hsim_i] at h1
    exact hdup j hjlen hjlab (hsim_eq1 j (by omega) h1)
  have hhead := categorySelection_head hiCat hk hbest huniq
  refine ⟨_, hok, ?_, ?_, hsim_i⟩
  · exact mem_compatFold.mpr ⟨_, htarget, hcisne, rfl⟩
  · rw [List.head?_map, hhead]
    rfl

/-- Witness for C9 (amended): querying `unitStore` with its row 0 and
requesting "tops" puts "a.jpg" on top with similarity 1. -/
theorem C9_query_row_is_top_match_witness :
    ∃ out, find_compatible_items (unitStore.vectors.getD 0 []) unitStore ["tops"] 5
        = .ok out ∧
      (unitStore.classes.getD (unitStore.labels.getD 0 0) "",
        (categorySelection unitStore.labels
          (similaritiesOf (unitStore.vectors.getD 0 []) unitStore.vectors)
          5 (unitStore.labels.getD 0 0)).map (fun j => unitStore.image_paths.getD j ""))
        ∈ out.compatibility ∧
      ((categorySelection unitStore.labels
          (similaritiesOf (unitStore.vectors.getD 0 []) unitStore.vectors)
          5 (unitStore.labels.getD 0 0)).map
          (fun j => unitStore.image_paths.getD j "")).head?
        = some (unitStore.image_paths.getD 0 "") ∧
      (similaritiesOf (unitStore.vectors.getD 0 []) unitStore.vectors).getD 0 0 = 1 :=
  C9_query_row_is_top_match unitStore 0 5 ["tops"]
    (by decide) (by decide) (by decide) (by decide)
    (by
      intro v hv
      simp only [unitStore, List.mem_cons, List.not_mem_nil, or_false] at hv
      rcases hv with rfl | rfl <;> rfl)
    (by
      intro v hv
      simp only [unitStore, List.mem_cons, List.not_mem_nil, or_false] at hv
      rcases hv with rfl | rfl <;> norm_num [sumSq])
    (by decide)
    (by decide)
    (by
      intro j hj h1 h2
      have hj2 : j < 2 := by simpa [unitStore] using hj
      interval_cases j
      · rfl
      · exact absurd h1 (by decide))

end PolyvoreRec
